import Mathlib

/-!
# Verification of the per-guild concurrency coordinator (renoir-bot)

Shallow embedding of the repository's core data structures and
operations:

* `MusicQueue` and its operations (src/domain/queue.rs),
* the guild-keyed queue registry `QueueService` (src/services/queue_service.rs),
* the teardown routine `cleanup_guild` (src/services/cleanup.rs),
* the cancellable bulk-enqueue loop `enqueue_collection_tracks` and the
  per-guild mutex discipline of `spawn_background_enqueue`
  (src/commands/play.rs),
* the double-checked join protocol `ensure_voice_connection`
  (src/commands/play.rs),
* the inactivity monitor loop and its idleness test
  (src/infrastructure/inactivity.rs).

Maps keyed by guild id are embedded as functions `Nat → Option β`;
tokio maps/mutexes become explicit state, and the two genuinely
concurrent pieces (bulk enqueue, voice join) are embedded as small
step machines driven by an arbitrary scheduling word.
-/

/-- Embeds `TrackSource` (src/domain/track.rs). -/
inductive TrackSource where
  | youtube
  | spotify
deriving DecidableEq, Repr

/-- Embeds `Track` (src/domain/track.rs): an immutable value type. -/
structure Track where
  title : String
  artist : String
  url : String
  source : TrackSource
  duration : Option String
  thumbnail_url : Option String
deriving DecidableEq, Repr

/-- Embeds `MusicQueue` (src/domain/queue.rs): a pending sequence
(`VecDeque`, front at the list head) plus an optional current track. -/
structure MusicQueue where
  current : Option Track
  tracks : List Track
deriving DecidableEq, Repr

/-- `MusicQueue::default()`: empty pending sequence, no current track. -/
def MusicQueue.empty : MusicQueue := ⟨none, []⟩

/-- `MusicQueue::push`: `self.tracks.push_back(track)`. Total — always
succeeds, no capacity bound. -/
def MusicQueue.push (q : MusicQueue) (t : Track) : MusicQueue :=
  { q with tracks := q.tracks ++ [t] }

/-- `MusicQueue::advance`: `self.current = self.tracks.pop_front();
self.current.as_ref()`. Returns the new current track together with the
mutated queue. -/
def MusicQueue.advance (q : MusicQueue) : Option Track × MusicQueue :=
  (q.tracks.head?, { current := q.tracks.head?, tracks := q.tracks.tail })

/-- `MusicQueue::current`: read-only view of the current track. -/
def MusicQueue.currentTrack (q : MusicQueue) : Option Track :=
  q.current

/-- `MusicQueue::take_current`: `self.current.take()`. -/
def MusicQueue.take_current (q : MusicQueue) : Option Track × MusicQueue :=
  (q.current, { q with current := none })

/-- `MusicQueue::clear`: `self.current = None; self.tracks.clear()`. -/
def MusicQueue.clear (_q : MusicQueue) : MusicQueue :=
  ⟨none, []⟩

/-- `MusicQueue::list`: a read-only view of the pending sequence. -/
def MusicQueue.list (q : MusicQueue) : List Track :=
  q.tracks

/-- A sequence of `MusicQueue::push` calls (used to state the FIFO
property of §8 of the spec). -/
def MusicQueue.pushAll (q : MusicQueue) (ts : List Track) : MusicQueue :=
  ts.foldl MusicQueue.push q

/-- The guild-keyed queue registry
`GuildQueues = Arc<RwLock<HashMap<GuildId, MusicQueue>>>`
(src/services/queue_service.rs), embedded as a function from guild id. -/
def GuildQueues : Type := Nat → Option MusicQueue

/-- Pointwise update of a guild-keyed map. -/
def mapUpdate {β : Type} (m : Nat → Option β) (g : Nat) (v : Option β) :
    Nat → Option β :=
  fun k => if k = g then v else m k

namespace QueueService

/-- `QueueService::add_track`:
`map.entry(guild_id).or_default().push(track)` — creates a fresh empty
queue for the guild if absent, then appends. -/
def add_track (qs : GuildQueues) (g : Nat) (t : Track) : GuildQueues :=
  mapUpdate qs g (some (((qs g).getD MusicQueue.empty).push t))

/-- `QueueService::advance`: `map.get_mut(&guild_id)?` — absent guild
returns `none` and leaves the registry untouched. -/
def advance (qs : GuildQueues) (g : Nat) : Option Track × GuildQueues :=
  match qs g with
  | none => (none, qs)
  | some q =>
      let r := q.advance
      (r.1, mapUpdate qs g (some r.2))

/-- `QueueService::current` (read lock only): absent guild returns `none`. -/
def current (qs : GuildQueues) (g : Nat) : Option Track :=
  match qs g with
  | none => none
  | some q => q.currentTrack

/-- `QueueService::skip`: `map.get_mut(&guild_id)?.take_current()`. -/
def skip (qs : GuildQueues) (g : Nat) : Option Track × GuildQueues :=
  match qs g with
  | none => (none, qs)
  | some q =>
      let r := q.take_current
      (r.1, mapUpdate qs g (some r.2))

/-- `QueueService::clear`: clears the guild's queue in place if the
entry exists; an absent guild is left absent. -/
def clear (qs : GuildQueues) (g : Nat) : GuildQueues :=
  fun k => if k = g then (qs g).map MusicQueue.clear else qs k

/-- `QueueService::list`: snapshot of the pending sequence; absent guild
yields the empty list. -/
def list (qs : GuildQueues) (g : Nat) : List Track :=
  match qs g with
  | some q => q.list
  | none => []

end QueueService

/-- A concrete track used to instantiate universally quantified
statements. -/
def sampleTrack : Track :=
  ⟨"title", "artist", "https://example.invalid", TrackSource.youtube, none, none⟩

/-- A second concrete track, distinct from `sampleTrack`. -/
def sampleTrack2 : Track :=
  ⟨"other title", "other artist", "https://example.invalid/2", TrackSource.spotify,
    some "3:45", none⟩

/- ------------------------------------------------------------------ -/
/- Cleanup (src/services/cleanup.rs)                                   -/
/- ------------------------------------------------------------------ -/

/-- The per-process state touched by `cleanup_guild`
(src/services/cleanup.rs).  The four guild-keyed maps mirror
`GuildQueues`, `EnqueueCancels`, `InactivityHandles` and
`NowPlayingMessages` (src/main.rs); cancellation flags are
`Arc<AtomicBool>` cells referenced by id in a shared store `flagVals`;
`notified` and `deleted` log the external effects (`Notify::notify_one`
and message deletion) so that the embedding does not hide them. -/
@[ext]
structure SysState where
  flagVals : Nat → Bool
  guildQueues : GuildQueues
  enqueueCancels : Nat → Option (List Nat)
  inactivityHandles : Nat → Option Nat
  nowPlayingMessages : Nat → Option (Nat × Nat)
  notified : List Nat
  deleted : List (Nat × Nat)

/-- Sets every flag in `ids` to `true` (`flag.store(true, Relaxed)`). -/
def setFlags (ids : List Nat) (f : Nat → Bool) : Nat → Bool :=
  fun x => if x ∈ ids then true else f x

/-- Step 1 of `cleanup_guild`: remove the guild's cancellation-flag
list and set every flag in it. -/
def cancelEnqueueTasks (g : Nat) (s : SysState) : SysState :=
  match s.enqueueCancels g with
  | some ids =>
      { s with
        enqueueCancels := mapUpdate s.enqueueCancels g none
        flagVals := setFlags ids s.flagVals }
  | none => s

/-- Step 2 of `cleanup_guild`: `QueueService::clear(guild_queues, guild_id)`. -/
def clearGuildQueue (g : Nat) (s : SysState) : SysState :=
  { s with guildQueues := QueueService.clear s.guildQueues g }

/-- Step 3 of `cleanup_guild`: remove the inactivity-monitor handle and
signal it (`cancel.notify_one()`). -/
def stopInactivityMonitor (g : Nat) (s : SysState) : SysState :=
  match s.inactivityHandles g with
  | some h =>
      { s with
        inactivityHandles := mapUpdate s.inactivityHandles g none
        notified := s.notified ++ [h] }
  | none => s

/-- Step 4 of `cleanup_guild`: remove the "Now Playing" message
reference and delete the message. -/
def deleteNowPlaying (g : Nat) (s : SysState) : SysState :=
  match s.nowPlayingMessages g with
  | some cm =>
      { s with
        nowPlayingMessages := mapUpdate s.nowPlayingMessages g none
        deleted := s.deleted ++ [cm] }
  | none => s

/-- `cleanup_guild` (src/services/cleanup.rs): cancel background
enqueue tasks, clear the track queue, cancel the inactivity monitor,
delete the "Now Playing" message — in that order. -/
def cleanup_guild (g : Nat) (s : SysState) : SysState :=
  deleteNowPlaying g (stopInactivityMonitor g (clearGuildQueue g (cancelEnqueueTasks g s)))

/- ------------------------------------------------------------------ -/
/- Bulk enqueue loop (src/commands/play.rs)                            -/
/- ------------------------------------------------------------------ -/

/-- Result of attaching the play-event handler to a submitted input
(`track_handle.add_event(...)` returns `Result` in
`enqueue_track`, src/commands/play.rs).  `err true` stands for a
resource-exhaustion-class failure (e.g. an invalidated connection
handle). -/
inductive PipelineOutcome where
  | ok
  | err (resourceExhaustion : Bool)
deriving DecidableEq, Repr

/-- The loop body of `enqueue_collection_tracks`
(src/commands/play.rs, lines 211–235), run with the bulk-enqueue mutex
held.  `cancelObs i` is the value the i-th per-item check reads from the
task's `AtomicBool` cancellation flag; each item carries the outcome of
its pipeline submission.  Mirrors the source exactly: the flag is
checked before each item; the submission outcome is discarded
(`let _ = track_handle.add_event(...)`) and the track is appended to the
guild queue unconditionally. -/
def enqueue_collection_tracks (cancelObs : Nat → Bool) :
    List (Track × PipelineOutcome) → Nat → List Track → List Track
  | [], _, queue => queue
  | (t, o) :: rest, i, queue =>
      if cancelObs i then queue
      else
        let _ := o
        enqueue_collection_tracks cancelObs rest (i + 1) (queue ++ [t])

/- ------------------------------------------------------------------ -/
/- Two concurrent bulk-enqueue tasks (src/commands/play.rs)            -/
/- ------------------------------------------------------------------ -/

/-- Control point of one spawned `enqueue_collection_tracks` task:
not yet holding the bulk-enqueue mutex (`lock_owned().await` pending,
still carrying its full track list), inside the loop with the mutex
held (carrying the not-yet-processed suffix), or returned (mutex
guard dropped).  Tracks are represented by their position/id; only
their order matters for the interleaving claim. -/
inductive BulkPhase (α : Type) where
  | pending (tracks : List α)
  | running (remaining : List α)
  | finished
deriving DecidableEq

/-- State shared by two bulk-enqueue tasks for the same guild: the
guild queue they append to, the per-guild bulk-enqueue mutex
(`enqueue_locks` entry — `holder` is the task owning the guard, if
any), and each task's control point.  The two tasks are indexed by
`Bool`. -/
structure BulkSt (α : Type) where
  queue : List α
  holder : Option Bool
  phase : Bool → BulkPhase α

/-- One scheduler step of task `t`, mirroring `enqueue_collection_tracks`
(src/commands/play.rs): a pending task acquires the mutex only when it
is free (otherwise it stays suspended on `lock_owned`); a running task
first reads its cancellation flag (`cancel t`) and returns if it is
set, otherwise it processes the next track by appending it to the
guild queue, and returns — dropping the guard — when its list is
exhausted. -/
def bulkStep {α : Type} (cancel : Bool → Bool) (s : BulkSt α) (t : Bool) : BulkSt α :=
  match s.phase t with
  | .pending tracks =>
      match s.holder with
      | none =>
          { s with holder := some t
                   phase := fun u => if u = t then .running tracks else s.phase u }
      | some _ => s
  | .running rem =>
      if cancel t then
        { s with holder := none
                 phase := fun u => if u = t then .finished else s.phase u }
      else
        match rem with
        | [] =>
            { s with holder := none
                     phase := fun u => if u = t then .finished else s.phase u }
        | x :: rest =>
            { s with queue := s.queue ++ [x]
                     phase := fun u => if u = t then .running rest else s.phase u }
  | .finished => s

/-- Runs the two tasks under an arbitrary interleaving `sched` (each
entry names the task scheduled for the next step). -/
def bulkRun {α : Type} (cancel : Bool → Bool) (s : BulkSt α) (sched : List Bool) :
    BulkSt α :=
  sched.foldl (bulkStep cancel) s

/-- Both bulk tasks spawned (by `spawn_background_enqueue`) on an empty
guild queue with the mutex free: task `false` carries list `A`, task
`true` carries list `B`. -/
def bulkInit {α : Type} (A B : List α) : BulkSt α :=
  { queue := []
    holder := none
    phase := fun t => if t then .pending B else .pending A }

/-- Relates a task's full list `L` and control point `p` to the
contribution `c` it has appended to the guild queue so far. -/
def contribOk {α : Type} (L : List α) (p : BulkPhase α) (c : List α) : Prop :=
  match p with
  | .pending l => l = L ∧ c = []
  | .running rem => L = c ++ rem
  | .finished => c = L

/-- Inductive invariant for two uncancelled bulk tasks: the queue is
one task's contribution followed by the other's, and a running task
(which holds the mutex) always appends at the tail — its contribution
comes last. -/
def BulkInv {α : Type} (A B : List α) (s : BulkSt α) : Prop :=
  ∃ c0 c1,
    contribOk A (s.phase false) c0 ∧
    contribOk B (s.phase true) c1 ∧
    (s.queue = c0 ++ c1 ∨ s.queue = c1 ++ c0) ∧
    (∀ rem, s.phase false = .running rem → s.holder = some false ∧ s.queue = c1 ++ c0) ∧
    (∀ rem, s.phase true = .running rem → s.holder = some true ∧ s.queue = c0 ++ c1)

/- ------------------------------------------------------------------ -/
/- Concurrent ensure_voice_connection (src/commands/play.rs)           -/
/- ------------------------------------------------------------------ -/

/-- Control point of one caller executing `ensure_voice_connection`
(src/commands/play.rs):
fast-path check → stale-handler `manager.leave` → suspension on the
per-guild join mutex → double-check under the mutex → `manager.join` →
return.  Returning drops the mutex guard. -/
inductive JoinPhase where
  | start
  | leaveStale
  | waitLock
  | doubleCheck
  | joining
  | done
deriving DecidableEq

/-- State shared by `n` concurrent `ensure_voice_connection` callers for
one guild: `marker` is `inactivity_handles.contains_key(guild_id)` —
never written by this function (only `setup_fresh_join` inserts it) —
`connected` abstracts `manager.get(guild_id)` reachability, `holder` is
the owner of the per-guild join mutex (`join_locks` entry), and
`joinCount` counts `manager.join` invocations. -/
structure JoinSt (n : Nat) where
  marker : Bool
  connected : Bool
  holder : Option (Fin n)
  phase : Fin n → JoinPhase
  joinCount : Nat

/-- One scheduler step of caller `i`, mirroring
`ensure_voice_connection` line by line: the fast path and the
double-check both test `marker && connected`; the stale-handler
removal disconnects; the mutex is acquired only when free; a join
increments the invocation count, establishes the connection and
releases the mutex on return. -/
def joinStep {n : Nat} (s : JoinSt n) (i : Fin n) : JoinSt n :=
  match s.phase i with
  | .start =>
      if s.marker && s.connected then
        { s with phase := fun j => if j = i then .done else s.phase j }
      else
        { s with phase := fun j => if j = i then .leaveStale else s.phase j }
  | .leaveStale =>
      { s with connected := false
               phase := fun j => if j = i then .waitLock else s.phase j }
  | .waitLock =>
      match s.holder with
      | none =>
          { s with holder := some i
                   phase := fun j => if j = i then .doubleCheck else s.phase j }
      | some _ => s
  | .doubleCheck =>
      if s.marker && s.connected then
        { s with holder := none
                 phase := fun j => if j = i then .done else s.phase j }
      else
        { s with phase := fun j => if j = i then .joining else s.phase j }
  | .joining =>
      { s with connected := true
               joinCount := s.joinCount + 1
               holder := none
               phase := fun j => if j = i then .done else s.phase j }
  | .done => s

/-- Runs the callers under an arbitrary interleaving. -/
def joinRun {n : Nat} (s : JoinSt n) (sched : List (Fin n)) : JoinSt n :=
  sched.foldl joinStep s

/-- `n` concurrent callers for a guild with no existing session: no
session marker, no reachable connection, mutex free, no join yet. -/
def joinInit (n : Nat) : JoinSt n :=
  { marker := false
    connected := false
    holder := none
    phase := fun _ => .start
    joinCount := 0 }

/-- Number of callers that have returned. -/
def doneCount {n : Nat} (s : JoinSt n) : Nat :=
  (List.finRange n).countP (fun i => decide (s.phase i = JoinPhase.done))

/-- The concrete two-caller schedule used to exhibit a second join:
caller 0 runs to completion, then caller 1 runs to completion. -/
def twoCallerSched : List (Fin 2) :=
  [0, 0, 0, 0, 0, 1, 1, 1, 1, 1]

/- ------------------------------------------------------------------ -/
/- Inactivity monitor (src/infrastructure/inactivity.rs)               -/
/- ------------------------------------------------------------------ -/

/-- Ceiling division `⌈a / b⌉` on naturals. -/
def ceilDiv (a b : Nat) : Nat := (a + b - 1) / b

/-- The monitor's idle accumulator expressed in polls: starting from
`c` consecutive idle polls, folds a sequence of per-poll idleness
observations — an idle poll adds one, a non-idle poll resets to zero
(`idle_elapsed += CHECK_INTERVAL` / `idle_elapsed = Duration::ZERO`). -/
def idleCount (c : Nat) (obs : List Bool) : Nat :=
  obs.foldl (fun acc b => if b then acc + 1 else 0) c

/-- The polling loop spawned by `spawn_inactivity_monitor`
(src/infrastructure/inactivity.rs): `acc` is `idle_elapsed`; each poll
sleeps `I` (the check interval), reads the idleness observation, adds
`I` to the accumulator or resets it to zero, and performs teardown
exactly when the accumulator reaches the threshold `T`.  The result is
the 1-based index of the poll at which teardown fires (`none` if the
observation sequence ends first — e.g. the task was cancelled via its
`Notify` handle, which exits without teardown). -/
def inactivity_monitor_run (I T : Nat) (acc : Nat) : List Bool → Option Nat
  | [] => none
  | idle :: rest =>
      let acc2 := if idle then acc + I else 0
      if T ≤ acc2 then some 1
      else (inactivity_monitor_run I T acc2 rest).map (fun m => m + 1)

/-- The observation sequence of spec §8 example 6: 29 idle polls, one
non-idle poll, then 30 more idle polls. -/
def monitorObs : List Bool :=
  List.replicate 29 true ++ [false] ++ List.replicate 30 true

/-- `is_idle` (src/infrastructure/inactivity.rs), over the four facts
the code inspects: whether `manager.get(guild_id)` returns a handler,
whether that handler's pipeline queue is empty, whether the guild is in
the serenity cache, and how many voice states sit in the bot's voice
channel.  No handler → idle; pipeline queue empty → idle; otherwise
idle iff the guild is cached with at most one member (the bot) in the
channel. -/
def is_idle (handlerPresent queueEmpty guildInCache : Bool)
    (membersInChannel : Nat) : Bool :=
  match handlerPresent with
  | false => true
  | true =>
      if queueEmpty then true
      else if guildInCache then
        if membersInChannel ≤ 1 then true else false
      else false

/-- Spec-side atom "playback queue/pipeline empty": an absent handler
has nothing queued. -/
def pipelineEmpty (handlerPresent queueEmpty : Bool) : Bool :=
  !handlerPresent || queueEmpty

/-- Spec-side atom "no other participant present in the voice/audio
session": the guild is cached and at most one member (the bot itself)
occupies the voice channel. -/
def botAlone (guildInCache : Bool) (membersInChannel : Nat) : Bool :=
  guildInCache && decide (membersInChannel ≤ 1)

/- ------------------------------------------------------------------ -/
/- Theorems                                                            -/
/- ------------------------------------------------------------------ -/

/-- C7: for every queue state, `current` right after `advance` returns
exactly the track `advance` returned, and that track is the former front
of the pending sequence (`head?`), which is `none` exactly when the
pending sequence was empty. -/
theorem advance_then_current (q : MusicQueue) :
    (q.advance.2).currentTrack = q.advance.1 ∧ q.advance.1 = q.tracks.head? := by
  constructor <;> rfl

/-- C8: any sequence of `push` operations yields `list` in exact
insertion (FIFO) order appended after the existing contents, `push`
never touches the current slot, and `list` is a pure read. -/
theorem push_list_fifo (q : MusicQueue) (ts : List Track) :
    (q.pushAll ts).list = q.list ++ ts ∧ (q.pushAll ts).current = q.current := by
  induction ts generalizing q with
  | nil => simp [MusicQueue.pushAll, MusicQueue.list]
  | cons t rest ih =>
      have h := ih (q.push t)
      constructor
      · calc ((q.push t).pushAll rest).list
            = (q.push t).list ++ rest := h.1
          _ = q.list ++ t :: rest := by
              simp [MusicQueue.push, MusicQueue.list]
      · calc ((q.push t).pushAll rest).current
            = (q.push t).current := h.2
          _ = q.current := rfl

/-- C10: operations of `QueueService` on a guild with no registry
entry: `list` is empty, `current`/`advance`/`skip` return nothing and do
not create an entry (the registry is returned unchanged), while
`add_track` creates a fresh empty entry and appends to it. -/
theorem absent_guild_ops (qs : GuildQueues) (g : Nat) (t : Track)
    (h : qs g = none) :
    QueueService.list qs g = [] ∧
    QueueService.current qs g = none ∧
    QueueService.advance qs g = (none, qs) ∧
    QueueService.skip qs g = (none, qs) ∧
    QueueService.add_track qs g t g = some ⟨none, [t]⟩ := by
  refine ⟨?_, ?_, ?_, ?_, ?_⟩
  · simp [QueueService.list, h]
  · simp [QueueService.current, h]
  · simp [QueueService.advance, h]
  · simp [QueueService.skip, h]
  · simp [QueueService.add_track, mapUpdate, h, MusicQueue.empty, MusicQueue.push]

/-- Witness for C10 at a concrete empty registry and guild. -/
theorem absent_guild_ops_witness :
    QueueService.list (fun _ => none) 0 = [] ∧
    QueueService.current (fun _ => none) 0 = none ∧
    QueueService.advance (fun _ => none) 0 = (none, fun _ => none) ∧
    QueueService.skip (fun _ => none) 0 = (none, fun _ => none) ∧
    QueueService.add_track (fun _ => none) 0 sampleTrack 0 = some ⟨none, [sampleTrack]⟩ :=
  absent_guild_ops (fun _ => none) 0 sampleTrack rfl

/- Field-tracking lemmas for the four cleanup steps. -/

theorem cancelET_guildQueues (g : Nat) (s : SysState) :
    (cancelEnqueueTasks g s).guildQueues = s.guildQueues := by
  unfold cancelEnqueueTasks
  cases s.enqueueCancels g <;> rfl

theorem cancelET_inactivityHandles (g : Nat) (s : SysState) :
    (cancelEnqueueTasks g s).inactivityHandles = s.inactivityHandles := by
  unfold cancelEnqueueTasks
  cases s.enqueueCancels g <;> rfl

theorem cancelET_nowPlayingMessages (g : Nat) (s : SysState) :
    (cancelEnqueueTasks g s).nowPlayingMessages = s.nowPlayingMessages := by
  unfold cancelEnqueueTasks
  cases s.enqueueCancels g <;> rfl

theorem cancelET_enqueueCancels_self (g : Nat) (s : SysState) :
    (cancelEnqueueTasks g s).enqueueCancels g = none := by
  unfold cancelEnqueueTasks
  cases h : s.enqueueCancels g <;> simp [h, mapUpdate]

theorem clearQ_guildQueues_self (g : Nat) (s : SysState) :
    (clearGuildQueue g s).guildQueues g = (s.guildQueues g).map MusicQueue.clear := by
  simp [clearGuildQueue, QueueService.clear]

theorem stopIM_guildQueues (g : Nat) (s : SysState) :
    (stopInactivityMonitor g s).guildQueues = s.guildQueues := by
  unfold stopInactivityMonitor
  cases s.inactivityHandles g <;> rfl

theorem stopIM_enqueueCancels (g : Nat) (s : SysState) :
    (stopInactivityMonitor g s).enqueueCancels = s.enqueueCancels := by
  unfold stopInactivityMonitor
  cases s.inactivityHandles g <;> rfl

theorem stopIM_nowPlayingMessages (g : Nat) (s : SysState) :
    (stopInactivityMonitor g s).nowPlayingMessages = s.nowPlayingMessages := by
  unfold stopInactivityMonitor
  cases s.inactivityHandles g <;> rfl

theorem stopIM_inactivityHandles_self (g : Nat) (s : SysState) :
    (stopInactivityMonitor g s).inactivityHandles g = none := by
  unfold stopInactivityMonitor
  cases h : s.inactivityHandles g <;> simp [h, mapUpdate]

theorem deleteNP_guildQueues (g : Nat) (s : SysState) :
    (deleteNowPlaying g s).guildQueues = s.guildQueues := by
  unfold deleteNowPlaying
  cases s.nowPlayingMessages g <;> rfl

theorem deleteNP_enqueueCancels (g : Nat) (s : SysState) :
    (deleteNowPlaying g s).enqueueCancels = s.enqueueCancels := by
  unfold deleteNowPlaying
  cases s.nowPlayingMessages g <;> rfl

theorem deleteNP_inactivityHandles (g : Nat) (s : SysState) :
    (deleteNowPlaying g s).inactivityHandles = s.inactivityHandles := by
  unfold deleteNowPlaying
  cases s.nowPlayingMessages g <;> rfl

theorem deleteNP_nowPlayingMessages_self (g : Nat) (s : SysState) :
    (deleteNowPlaying g s).nowPlayingMessages g = none := by
  unfold deleteNowPlaying
  cases h : s.nowPlayingMessages g <;> simp [h, mapUpdate]

/- Each cleanup step is the identity on an already-cleaned state. -/

theorem cancelET_id (g : Nat) (s : SysState) (h : s.enqueueCancels g = none) :
    cancelEnqueueTasks g s = s := by
  unfold cancelEnqueueTasks
  rw [h]

theorem clearQ_id (g : Nat) (s : SysState)
    (h : (s.guildQueues g).map MusicQueue.clear = s.guildQueues g) :
    clearGuildQueue g s = s := by
  unfold clearGuildQueue
  ext1 <;> try rfl
  funext k
  by_cases hk : k = g
  · subst hk; simp [QueueService.clear, h]
  · simp [QueueService.clear, hk]

theorem stopIM_id (g : Nat) (s : SysState) (h : s.inactivityHandles g = none) :
    stopInactivityMonitor g s = s := by
  unfold stopInactivityMonitor
  rw [h]

theorem deleteNP_id (g : Nat) (s : SysState) (h : s.nowPlayingMessages g = none) :
    deleteNowPlaying g s = s := by
  unfold deleteNowPlaying
  rw [h]

/- State of a guild after one `cleanup_guild` call. -/

theorem cleanup_enqueueCancels (g : Nat) (s : SysState) :
    (cleanup_guild g s).enqueueCancels g = none := by
  unfold cleanup_guild
  rw [deleteNP_enqueueCancels, stopIM_enqueueCancels]
  exact cancelET_enqueueCancels_self g s

theorem cleanup_inactivityHandles (g : Nat) (s : SysState) :
    (cleanup_guild g s).inactivityHandles g = none := by
  unfold cleanup_guild
  rw [deleteNP_inactivityHandles]
  exact stopIM_inactivityHandles_self g _

theorem cleanup_nowPlayingMessages (g : Nat) (s : SysState) :
    (cleanup_guild g s).nowPlayingMessages g = none :=
  deleteNP_nowPlayingMessages_self g _

theorem cleanup_guildQueues (g : Nat) (s : SysState) :
    (cleanup_guild g s).guildQueues g = (s.guildQueues g).map MusicQueue.clear := by
  unfold cleanup_guild
  rw [deleteNP_guildQueues, stopIM_guildQueues, clearQ_guildQueues_self,
    cancelET_guildQueues]

/-- C1: `cleanup_guild` is idempotent — a second invocation in immediate
succession is the identity (so the final state, external effects
included, is that of a single invocation, and the second invocation
raises no error since the operation is total) — and one invocation
leaves the guild with an empty queue (pending and current), no
registered cancellation flags, no inactivity-monitor handle and no
"Now Playing" message reference. -/
theorem cleanup_idempotent (g : Nat) (s : SysState) :
    cleanup_guild g (cleanup_guild g s) = cleanup_guild g s ∧
    ((cleanup_guild g s).guildQueues g = none ∨
      (cleanup_guild g s).guildQueues g = some ⟨none, []⟩) ∧
    (cleanup_guild g s).enqueueCancels g = none ∧
    (cleanup_guild g s).inactivityHandles g = none ∧
    (cleanup_guild g s).nowPlayingMessages g = none := by
  refine ⟨?_, ?_, cleanup_enqueueCancels g s, cleanup_inactivityHandles g s,
    cleanup_nowPlayingMessages g s⟩
  · have hq : ((cleanup_guild g s).guildQueues g).map MusicQueue.clear
        = (cleanup_guild g s).guildQueues g := by
      rw [cleanup_guildQueues]
      cases s.guildQueues g <;> rfl
    have h1 := cancelET_id g (cleanup_guild g s) (cleanup_enqueueCancels g s)
    have h2 := clearQ_id g (cleanup_guild g s) hq
    have h3 := stopIM_id g (cleanup_guild g s) (cleanup_inactivityHandles g s)
    have h4 := deleteNP_id g (cleanup_guild g s) (cleanup_nowPlayingMessages g s)
    calc cleanup_guild g (cleanup_guild g s)
        = deleteNowPlaying g (stopInactivityMonitor g
            (clearGuildQueue g (cancelEnqueueTasks g (cleanup_guild g s)))) := rfl
      _ = cleanup_guild g s := by rw [h1, h2, h3, h4]
  · rw [cleanup_guildQueues]
    cases s.guildQueues g
    · exact Or.inl rfl
    · exact Or.inr rfl

/- Bulk enqueue: cancellation and error handling. -/

theorem enqueue_cancel_aux (k : Nat) :
    ∀ (items : List (Track × PipelineOutcome)) (i : Nat) (queue : List Track),
      i ≤ k →
      enqueue_collection_tracks (fun j => decide (k ≤ j)) items i queue
        = queue ++ (items.take (k - i)).map Prod.fst := by
  intro items
  induction items with
  | nil => intro i queue _; simp [enqueue_collection_tracks]
  | cons p rest ih =>
      intro i queue hik
      obtain ⟨t, o⟩ := p
      by_cases hki : k ≤ i
      · have : i = k := Nat.le_antisymm hik hki
        subst this
        simp [enqueue_collection_tracks]
      · have hlt : i < k := Nat.lt_of_le_of_ne hik (fun h => hki (h ▸ Nat.le_refl i))
        have hstep : k - i = (k - (i + 1)) + 1 := by omega
        rw [show enqueue_collection_tracks (fun j => decide (k ≤ j)) ((t, o) :: rest) i queue
            = enqueue_collection_tracks (fun j => decide (k ≤ j)) rest (i + 1) (queue ++ [t]) by
          simp [enqueue_collection_tracks, hki]]
        rw [ih (i + 1) (queue ++ [t]) hlt, hstep]
        simp

/-- C4: if a bulk-enqueue task's cancellation flag is set after exactly
`k` of `n` items have been processed (the per-item check reads `false`
for the first `k` checks and `true` from then on), the task appends
exactly the first `k` tracks to the guild queue: already-processed
items remain and nothing further is appended. -/
theorem bulk_cancel_exact (k : Nat) (items : List (Track × PipelineOutcome))
    (queue : List Track) (h : k ≤ items.length) :
    enqueue_collection_tracks (fun j => decide (k ≤ j)) items 0 queue
      = queue ++ (items.take k).map Prod.fst ∧
    (queue ++ (items.take k).map Prod.fst).length = queue.length + k := by
  constructor
  · have := enqueue_cancel_aux k items 0 queue (Nat.zero_le k)
    simpa using this
  · simp [List.length_take, Nat.min_eq_left h]

/-- Witness for C4: five items, flag set after two processed → exactly
the first two tracks are appended. -/
theorem bulk_cancel_exact_witness :
    enqueue_collection_tracks (fun j => decide (2 ≤ j))
      [(sampleTrack, PipelineOutcome.ok), (sampleTrack2, PipelineOutcome.ok),
        (sampleTrack, PipelineOutcome.ok), (sampleTrack, PipelineOutcome.ok),
        (sampleTrack, PipelineOutcome.ok)] 0 []
      = [sampleTrack, sampleTrack2] ∧ (2 : Nat) = 2 := by
  have h := bulk_cancel_exact 2
    [(sampleTrack, PipelineOutcome.ok), (sampleTrack2, PipelineOutcome.ok),
      (sampleTrack, PipelineOutcome.ok), (sampleTrack, PipelineOutcome.ok),
      (sampleTrack, PipelineOutcome.ok)] [] (by simp)
  exact ⟨by simpa using h.1, rfl⟩

theorem enqueue_no_abort_aux :
    ∀ (items : List (Track × PipelineOutcome)) (i : Nat) (queue : List Track),
      enqueue_collection_tracks (fun _ => false) items i queue
        = queue ++ items.map Prod.fst := by
  intro items
  induction items with
  | nil => intro i queue; simp [enqueue_collection_tracks]
  | cons p rest ih =>
      intro i queue
      obtain ⟨t, o⟩ := p
      rw [show enqueue_collection_tracks (fun _ => false) ((t, o) :: rest) i queue
          = enqueue_collection_tracks (fun _ => false) rest (i + 1) (queue ++ [t]) from rfl]
      rw [ih]
      simp

/-- C9 (amended): per-item submission outcomes are entirely ignored by
the bulk-enqueue loop — whatever the outcomes (including
resource-exhaustion-class failures), when the cancellation flag stays
unset every item is appended and the loop never aborts early; only the
cancellation flag can stop the task. Nothing is logged per failed item
(the attach-event result is discarded). -/
theorem bulk_submission_failures_nonfatal
    (items : List (Track × PipelineOutcome)) (queue : List Track) :
    enqueue_collection_tracks (fun _ => false) items 0 queue
      = queue ++ items.map Prod.fst :=
  enqueue_no_abort_aux items 0 queue

/-- C9 counterexample: the first item's pipeline submission fails with a
resource-exhaustion-class error, yet the second item is still appended —
the code does not abort the remainder of the bulk task on any failure
class. -/
theorem bulk_no_resource_abort_counterexample :
    enqueue_collection_tracks (fun _ => false)
      [(sampleTrack, PipelineOutcome.err true), (sampleTrack2, PipelineOutcome.ok)]
      0 []
      = [sampleTrack, sampleTrack2] ∧
    sampleTrack2 ∈ enqueue_collection_tracks (fun _ => false)
      [(sampleTrack, PipelineOutcome.err true), (sampleTrack2, PipelineOutcome.ok)]
      0 [] := by
  constructor
  · rfl
  · show sampleTrack2 ∈ enqueue_collection_tracks (fun _ => false)
      [(sampleTrack, PipelineOutcome.err true), (sampleTrack2, PipelineOutcome.ok)] 0 []
    rw [show enqueue_collection_tracks (fun _ => false)
      [(sampleTrack, PipelineOutcome.err true), (sampleTrack2, PipelineOutcome.ok)] 0 []
      = [sampleTrack, sampleTrack2] from rfl]
    simp

/- Two concurrent bulk tasks: the invariant holds initially and is
preserved by every scheduler step when neither task is cancelled. -/

theorem bulkInv_init {α : Type} (A B : List α) : BulkInv A B (bulkInit A B) := by
  refine ⟨[], [], ?_, ?_, ?_, ?_, ?_⟩
  · simp [bulkInit, contribOk]
  · simp [bulkInit, contribOk]
  · simp [bulkInit]
  · intro rem h; simp [bulkInit] at h
  · intro rem h; simp [bulkInit] at h

theorem bulkInv_step {α : Type} (A B : List α) (s : BulkSt α) (t : Bool)
    (h : BulkInv A B s) : BulkInv A B (bulkStep (fun _ => false) s t) := by
  obtain ⟨c0, c1, h0, h1, hq, hr0, hr1⟩ := h
  cases t with
  | false =>
      cases hp : s.phase false with
      | pending l =>
          rw [hp] at h0
          obtain ⟨hlA, hc0⟩ := h0
          cases hh : s.holder with
          | none =>
              have hstep : bulkStep (fun _ => false) s false =
                  { s with holder := some false
                           phase := fun u => if u = false then .running l
                             else s.phase u } := by
                simp [bulkStep, hp, hh]
              rw [hstep]
              have hqc : s.queue = c1 := by
                subst hc0; simpa using hq
              refine ⟨[], c1, ?_, ?_, ?_, ?_, ?_⟩
              · show contribOk A (BulkPhase.running l) []
                show A = [] ++ l
                simp [hlA]
              · show contribOk B (s.phase true) c1
                exact h1
              · show s.queue = [] ++ c1 ∨ s.queue = c1 ++ []
                exact Or.inl (by simpa using hqc)
              · intro rem hrem
                refine ⟨rfl, ?_⟩
                show s.queue = c1 ++ []
                simpa using hqc
              · intro rem hrem
                have hrun : s.phase true = BulkPhase.running rem := hrem
                have := (hr1 rem hrun).1
                rw [hh] at this
                exact absurd this (by simp)
          | some u =>
              have hstep : bulkStep (fun _ => false) s false = s := by
                simp [bulkStep, hp, hh]
              rw [hstep]
              exact ⟨c0, c1, by rw [hp]; exact ⟨hlA, hc0⟩, h1, hq, hr0, hr1⟩
      | running rem =>
          rw [hp] at h0
          obtain ⟨hhold, hqeq⟩ := hr0 rem hp
          cases rem with
          | nil =>
              have hstep : bulkStep (fun _ => false) s false =
                  { s with holder := none
                           phase := fun u => if u = false then .finished
                             else s.phase u } := by
                simp [bulkStep, hp]
              rw [hstep]
              refine ⟨c0, c1, ?_, ?_, ?_, ?_, ?_⟩
              · show contribOk A BulkPhase.finished c0
                show c0 = A
                simpa using h0.symm
              · show contribOk B (s.phase true) c1
                exact h1
              · exact Or.inr hqeq
              · intro rem2 hrem2
                exact absurd hrem2 (by simp)
              · intro rem2 hrem2
                have hrun : s.phase true = BulkPhase.running rem2 := hrem2
                have := (hr1 rem2 hrun).1
                rw [hhold] at this
                exact absurd this (by simp)
          | cons x rest =>
              have hstep : bulkStep (fun _ => false) s false =
                  { s with queue := s.queue ++ [x]
                           phase := fun u => if u = false then .running rest
                             else s.phase u } := by
                simp [bulkStep, hp]
              rw [hstep]
              refine ⟨c0 ++ [x], c1, ?_, ?_, ?_, ?_, ?_⟩
              · show contribOk A (BulkPhase.running rest) (c0 ++ [x])
                show A = (c0 ++ [x]) ++ rest
                rw [h0]; simp
              · show contribOk B (s.phase true) c1
                exact h1
              · refine Or.inr ?_
                show s.queue ++ [x] = c1 ++ (c0 ++ [x])
                rw [hqeq]; simp
              · intro rem2 hrem2
                refine ⟨hhold, ?_⟩
                show s.queue ++ [x] = c1 ++ (c0 ++ [x])
                rw [hqeq]; simp
              · intro rem2 hrem2
                have hrun : s.phase true = BulkPhase.running rem2 := hrem2
                have := (hr1 rem2 hrun).1
                rw [hhold] at this
                exact absurd this (by simp)
      | finished =>
          have hstep : bulkStep (fun _ => false) s false = s := by
            simp [bulkStep, hp]
          rw [hstep]
          exact ⟨c0, c1, h0, h1, hq, hr0, hr1⟩
  | true =>
      cases hp : s.phase true with
      | pending l =>
          rw [hp] at h1
          obtain ⟨hlB, hc1⟩ := h1
          cases hh : s.holder with
          | none =>
              have hstep : bulkStep (fun _ => false) s true =
                  { s with holder := some true
                           phase := fun u => if u = true then .running l
                             else s.phase u } := by
                simp [bulkStep, hp, hh]
              rw [hstep]
              have hqc : s.queue = c0 := by
                subst hc1; simpa using hq
              refine ⟨c0, [], ?_, ?_, ?_, ?_, ?_⟩
              · show contribOk A (s.phase false) c0
                exact h0
              · show contribOk B (BulkPhase.running l) []
                show B = [] ++ l
                simp [hlB]
              · show s.queue = c0 ++ [] ∨ s.queue = [] ++ c0
                exact Or.inl (by simpa using hqc)
              · intro rem hrem
                have hrun : s.phase false = BulkPhase.running rem := hrem
                have := (hr0 rem hrun).1
                rw [hh] at this
                exact absurd this (by simp)
              · intro rem hrem
                refine ⟨rfl, ?_⟩
                show s.queue = c0 ++ []
                simpa using hqc
          | some u =>
              have hstep : bulkStep (fun _ => false) s true = s := by
                simp [bulkStep, hp, hh]
              rw [hstep]
              exact ⟨c0, c1, h0, by rw [hp]; exact ⟨hlB, hc1⟩, hq, hr0, hr1⟩
      | running rem =>
          rw [hp] at h1
          obtain ⟨hhold, hqeq⟩ := hr1 rem hp
          cases rem with
          | nil =>
              have hstep : bulkStep (fun _ => false) s true =
                  { s with holder := none
                           phase := fun u => if u = true then .finished
                             else s.phase u } := by
                simp [bulkStep, hp]
              rw [hstep]
              refine ⟨c0, c1, ?_, ?_, ?_, ?_, ?_⟩
              · show contribOk A (s.phase false) c0
                exact h0
              · show contribOk B BulkPhase.finished c1
                show c1 = B
                simpa using h1.symm
              · exact Or.inl hqeq
              · intro rem2 hrem2
                have hrun : s.phase false = BulkPhase.running rem2 := hrem2
                have := (hr0 rem2 hrun).1
                rw [hhold] at this
                exact absurd this (by simp)
              · intro rem2 hrem2
                exact absurd hrem2 (by simp)
          | cons x rest =>
              have hstep : bulkStep (fun _ => false) s true =
                  { s with queue := s.queue ++ [x]
                           phase := fun u => if u = true then .running rest
                             else s.phase u } := by
                simp [bulkStep, hp]
              rw [hstep]
              refine ⟨c0, c1 ++ [x], ?_, ?_, ?_, ?_, ?_⟩
              · show contribOk A (s.phase false) c0
                exact h0
              · show contribOk B (BulkPhase.running rest) (c1 ++ [x])
                show B = (c1 ++ [x]) ++ rest
                rw [h1]; simp
              · refine Or.inl ?_
                show s.queue ++ [x] = c0 ++ (c1 ++ [x])
                rw [hqeq]; simp
              · intro rem2 hrem2
                have hrun : s.phase false = BulkPhase.running rem2 := hrem2
                have := (hr0 rem2 hrun).1
                rw [hhold] at this
                exact absurd this (by simp)
              · intro rem2 hrem2
                refine ⟨hhold, ?_⟩
                show s.queue ++ [x] = c0 ++ (c1 ++ [x])
                rw [hqeq]; simp
      | finished =>
          have hstep : bulkStep (fun _ => false) s true = s := by
            simp [bulkStep, hp]
          rw [hstep]
          exact ⟨c0, c1, h0, h1, hq, hr0, hr1⟩

theorem bulkInv_run {α : Type} (A B : List α) :
    ∀ (sched : List Bool) (s : BulkSt α), BulkInv A B s →
      BulkInv A B (bulkRun (fun _ => false) s sched) := by
  intro sched
  induction sched with
  | nil => intro s h; exact h
  | cons t rest ih =>
      intro s h
      exact ih (bulkStep (fun _ => false) s t) (bulkInv_step A B s t h)

/-- C2: two uncancelled bulk-enqueue tasks for the same guild, with
track lists `A` and `B`, never interleave their appends under any
scheduling: once both have completed, the guild queue is exactly
`A ++ B` or `B ++ A`, because the per-guild bulk-enqueue mutex keeps
the two loops from running concurrently. -/
theorem bulk_no_interleave {α : Type} (A B : List α) (sched : List Bool)
    (hf : (bulkRun (fun _ => false) (bulkInit A B) sched).phase false = .finished)
    (ht : (bulkRun (fun _ => false) (bulkInit A B) sched).phase true = .finished) :
    (bulkRun (fun _ => false) (bulkInit A B) sched).queue = A ++ B ∨
    (bulkRun (fun _ => false) (bulkInit A B) sched).queue = B ++ A := by
  obtain ⟨c0, c1, h0, h1, hq, _, _⟩ :=
    bulkInv_run A B sched (bulkInit A B) (bulkInv_init A B)
  rw [hf] at h0
  rw [ht] at h1
  simp only [contribOk] at h0 h1
  subst h0
  subst h1
  exact hq

/-- Witness for C2: a concrete schedule where task `false` (list
`[1, 2]`) runs first, then task `true` (list `[3, 4]`); both complete
and the queue is one of the two concatenations. -/
theorem bulk_no_interleave_witness :
    (bulkRun (fun _ => false) (bulkInit [1, 2] [3, 4])
        [false, false, false, false, true, true, true, true]).queue
      = [1, 2] ++ [3, 4] ∨
    (bulkRun (fun _ => false) (bulkInit [1, 2] [3, 4])
        [false, false, false, false, true, true, true, true]).queue
      = [3, 4] ++ [1, 2] :=
  bulk_no_interleave [1, 2] [3, 4]
    [false, false, false, false, true, true, true, true]
    (by decide) (by decide)

/- Counting helper lemmas for the join machine. -/

theorem countP_update_done {n : Nat} (f : Fin n → JoinPhase) (i : Fin n)
    (p : JoinPhase) (hfi : f i ≠ JoinPhase.done) (hp : p = JoinPhase.done) :
    ∀ l : List (Fin n),
      l.countP (fun j => decide ((if j = i then p else f j) = JoinPhase.done))
        = l.countP (fun j => decide (f j = JoinPhase.done)) + l.count i := by
  intro l
  induction l with
  | nil => simp
  | cons j rest ih =>
      rw [List.countP_cons, List.countP_cons, List.count_cons, ih]
      by_cases hj : j = i
      · subst hj
        simp only [if_pos rfl, hp]
        have h1 : f j ≠ JoinPhase.done := hfi
        simp [h1]
        omega
      · simp only [if_neg hj]
        have h2 : i ≠ j := Ne.symm hj
        simp [hj, h2]
        omega

theorem countP_update_notDone {n : Nat} (f : Fin n → JoinPhase) (i : Fin n)
    (p : JoinPhase) (hfi : f i ≠ JoinPhase.done) (hp : p ≠ JoinPhase.done) :
    ∀ l : List (Fin n),
      l.countP (fun j => decide ((if j = i then p else f j) = JoinPhase.done))
        = l.countP (fun j => decide (f j = JoinPhase.done)) := by
  intro l
  induction l with
  | nil => simp
  | cons j rest ih =>
      rw [List.countP_cons, List.countP_cons, ih]
      by_cases hj : j = i
      · subst hj
        simp only [if_pos rfl]
        have h1 : f j ≠ JoinPhase.done := hfi
        simp [h1, hp]
      · simp only [if_neg hj]

theorem count_i_finRange {n : Nat} (i : Fin n) : (List.finRange n).count i = 1 :=
  List.count_eq_one_of_mem (List.nodup_finRange n) (List.mem_finRange i)

/- Invariant of the join machine: the session marker is never written
by ensure_voice_connection, and the number of joins always equals the
number of callers that have returned. -/

theorem joinInv_step {n : Nat} (s : JoinSt n) (i : Fin n)
    (hm : s.marker = false) (hc : s.joinCount = doneCount s) :
    (joinStep s i).marker = false ∧ (joinStep s i).joinCount = doneCount (joinStep s i) := by
  cases hp : s.phase i with
  | start =>
      have hstep : joinStep s i =
          { s with phase := fun j => if j = i then .leaveStale else s.phase j } := by
        simp [joinStep, hp, hm]
      rw [hstep]
      refine ⟨hm, ?_⟩
      show s.joinCount = doneCount _
      unfold doneCount
      rw [countP_update_notDone s.phase i _ (by rw [hp]; simp) (by simp)]
      exact hc
  | leaveStale =>
      have hstep : joinStep s i =
          { s with connected := false
                   phase := fun j => if j = i then .waitLock else s.phase j } := by
        simp [joinStep, hp]
      rw [hstep]
      refine ⟨hm, ?_⟩
      unfold doneCount
      rw [countP_update_notDone s.phase i _ (by rw [hp]; simp) (by simp)]
      exact hc
  | waitLock =>
      cases hh : s.holder with
      | none =>
          have hstep : joinStep s i =
              { s with holder := some i
                       phase := fun j => if j = i then .doubleCheck else s.phase j } := by
            simp [joinStep, hp, hh]
          rw [hstep]
          refine ⟨hm, ?_⟩
          unfold doneCount
          rw [countP_update_notDone s.phase i _ (by rw [hp]; simp) (by simp)]
          exact hc
      | some u =>
          have hstep : joinStep s i = s := by
            simp [joinStep, hp, hh]
          rw [hstep]
          exact ⟨hm, hc⟩
  | doubleCheck =>
      have hstep : joinStep s i =
          { s with phase := fun j => if j = i then .joining else s.phase j } := by
        simp [joinStep, hp, hm]
      rw [hstep]
      refine ⟨hm, ?_⟩
      unfold doneCount
      rw [countP_update_notDone s.phase i _ (by rw [hp]; simp) (by simp)]
      exact hc
  | joining =>
      have hstep : joinStep s i =
          { s with connected := true
                   joinCount := s.joinCount + 1
                   holder := none
                   phase := fun j => if j = i then .done else s.phase j } := by
        simp [joinStep, hp]
      rw [hstep]
      refine ⟨hm, ?_⟩
      show s.joinCount + 1 = doneCount _
      unfold doneCount
      rw [countP_update_done s.phase i _ (by rw [hp]; simp) rfl, count_i_finRange]
      rw [hc]
      rfl
  | done =>
      have hstep : joinStep s i = s := by
        simp [joinStep, hp]
      rw [hstep]
      exact ⟨hm, hc⟩

theorem joinInv_run {n : Nat} :
    ∀ (sched : List (Fin n)) (s : JoinSt n),
      s.marker = false → s.joinCount = doneCount s →
      (joinRun s sched).marker = false ∧
      (joinRun s sched).joinCount = doneCount (joinRun s sched) := by
  intro sched
  induction sched with
  | nil => intro s hm hc; exact ⟨hm, hc⟩
  | cons i rest ih =>
      intro s hm hc
      obtain ⟨hm2, hc2⟩ := joinInv_step s i hm hc
      exact ih (joinStep s i) hm2 hc2

/-- C3 counterexample: two concurrent `ensure_voice_connection` callers
for a guild with no existing connection, run one after the other; both
return, yet `manager.join` is invoked twice, not exactly once — the
double-check tests the `inactivity_handles` session marker, which
`ensure_voice_connection` itself never sets. -/
theorem join_two_callers_two_joins :
    (joinRun (joinInit 2) twoCallerSched).phase 0 = JoinPhase.done ∧
    (joinRun (joinInit 2) twoCallerSched).phase 1 = JoinPhase.done ∧
    (joinRun (joinInit 2) twoCallerSched).joinCount = 2 ∧
    (joinRun (joinInit 2) twoCallerSched).joinCount ≠ 1 := by
  decide

/-- C3 (amended): for a guild with no session marker and no connection,
every `ensure_voice_connection` caller that returns has performed its
own `manager.join` — under any scheduling, the number of join
invocations equals the number of callers that returned (so `n` joins
once all `n` callers complete, serialized by the per-guild join mutex),
not exactly one join in total. -/
theorem join_count_eq_completed_callers {n : Nat} (sched : List (Fin n))
    (hdone : ∀ i, (joinRun (joinInit n) sched).phase i = JoinPhase.done) :
    (joinRun (joinInit n) sched).joinCount = n := by
  have h0 : (joinInit n).joinCount = doneCount (joinInit n) := by
    unfold doneCount joinInit
    induction n with
    | zero => rfl
    | succ m _ =>
        rw [List.countP_eq_zero.mpr]
        intro a _
        simp
  obtain ⟨_, hc⟩ := joinInv_run sched (joinInit n) rfl h0
  rw [hc]
  unfold doneCount
  rw [List.countP_eq_length.mpr]
  · exact List.length_finRange n
  · intro a _
    simp [hdone a]

/-- Witness for the amended C3: the two-caller schedule completes both
callers and records two joins. -/
theorem join_count_eq_completed_callers_witness :
    (joinRun (joinInit 2) twoCallerSched).joinCount = 2 :=
  join_count_eq_completed_callers twoCallerSched (by decide)

/- Arithmetic: the accumulator crosses the threshold exactly at the
ceilDiv-th consecutive idle poll. -/

theorem ceilDiv_le_iff (a b c : Nat) (hb : 0 < b) :
    ceilDiv a b ≤ c ↔ a ≤ b * c := by
  unfold ceilDiv
  rw [Nat.div_le_iff_le_mul_add_pred hb]
  omega

theorem ceilDiv_pos (T I : Nat) (hI : 0 < I) (hT : 0 < T) : 0 < ceilDiv T I := by
  rcases Nat.eq_zero_or_pos (ceilDiv T I) with h | h
  · have := (ceilDiv_le_iff T I 0 hI).mp (Nat.le_of_eq h)
    omega
  · exact h

theorem monitor_fire_aux (I T : Nat) (hI : 0 < I) :
    ∀ (obs : List Bool) (c n : Nat), c < ceilDiv T I →
      (inactivity_monitor_run I T (I * c) obs = some n ↔
        (n ≤ obs.length ∧ ceilDiv T I ≤ idleCount c (obs.take n) ∧
          ∀ m < n, idleCount c (obs.take m) < ceilDiv T I)) := by
  intro obs
  induction obs with
  | nil =>
      intro c n hc
      constructor
      · intro h
        simp [inactivity_monitor_run] at h
      · rintro ⟨hn, hk, _⟩
        have hn0 : n = 0 := Nat.le_zero.mp hn
        subst hn0
        simp [idleCount] at hk
        omega
  | cons b rest ih =>
      intro c n hc
      have hic : ∀ p, idleCount c (b :: p) = idleCount (if b then c + 1 else 0) p := by
        intro p
        cases b <;> simp [idleCount]
      have hdef : inactivity_monitor_run I T (I * c) (b :: rest)
          = (if T ≤ I * (if b then c + 1 else 0) then some 1
             else (inactivity_monitor_run I T (I * (if b then c + 1 else 0)) rest).map
               (fun m => m + 1)) := by
        cases b <;> simp [inactivity_monitor_run, Nat.mul_succ]
      rw [hdef]
      by_cases hfire : T ≤ I * (if b then c + 1 else 0)
      · rw [if_pos hfire]
        have hkc2 : ceilDiv T I ≤ (if b then c + 1 else 0) :=
          (ceilDiv_le_iff T I _ hI).mpr hfire
        constructor
        · intro h
          have hn1 : n = 1 := by
            injection h with h1
            omega
          subst hn1
          refine ⟨by simp, ?_, ?_⟩
          · rw [show (b :: rest).take 1 = [b] by simp, hic]
            simpa using hkc2
          · intro m hm
            have hm0 : m = 0 := by omega
            subst hm0
            simpa [idleCount] using hc
        · rintro ⟨hn, hkle, hlt⟩
          have h1 : n ≠ 0 := by
            intro h0
            subst h0
            simp [idleCount] at hkle
            omega
          have h2 : n < 2 := by
            by_contra hge
            push_neg at hge
            have := hlt 1 (by omega)
            rw [show (b :: rest).take 1 = [b] by simp, hic] at this
            have h3 : idleCount (if b then c + 1 else 0) [] = (if b then c + 1 else 0) := rfl
            rw [h3] at this
            omega
          have : n = 1 := by omega
          subst this
          rfl
      · rw [if_neg hfire]
        have hc2 : (if b then c + 1 else 0) < ceilDiv T I := by
          by_contra hge
          push_neg at hge
          exact hfire ((ceilDiv_le_iff T I _ hI).mp hge)
        rw [Option.map_eq_some']
        constructor
        · rintro ⟨w, hrun, hw⟩
          obtain ⟨hlen, hk2, hlt2⟩ := (ih _ w hc2).mp hrun
          subst hw
          refine ⟨by simpa using Nat.succ_le_succ hlen, ?_, ?_⟩
          · rw [List.take_succ_cons, hic]
            exact hk2
          · intro m hm
            cases m with
            | zero => simpa [idleCount] using hc
            | succ m2 =>
                rw [List.take_succ_cons, hic]
                exact hlt2 m2 (by omega)
        · rintro ⟨hn, hkle, hlt⟩
          have h1 : n ≠ 0 := by
            intro h0
            subst h0
            simp [idleCount] at hkle
            omega
          obtain ⟨n2, rfl⟩ := Nat.exists_eq_succ_of_ne_zero h1
          refine ⟨n2, (ih _ n2 hc2).mpr ⟨?_, ?_, ?_⟩, rfl⟩
          · simpa using Nat.le_of_succ_le_succ hn
          · rw [List.take_succ_cons, hic] at hkle
            exact hkle
          · intro m hm
            have := hlt (m + 1) (by omega)
            rw [List.take_succ_cons, hic] at this
            exact this

/-- C5: with poll interval `I > 0` and threshold `T > 0`, the monitor
fires teardown at poll `n` exactly when `n` is the first poll at which
the number of trailing consecutive idle polls reaches `⌈T/I⌉` — never
before — and a non-idle poll resets the accumulator to zero, restarting
the counting (the accumulator is `idleCount`). -/
theorem monitor_fires_at_threshold (I T : Nat) (hI : 0 < I) (hT : 0 < T)
    (obs : List Bool) (n : Nat) :
    inactivity_monitor_run I T 0 obs = some n ↔
      (n ≤ obs.length ∧ ceilDiv T I ≤ idleCount 0 (obs.take n) ∧
        ∀ m < n, idleCount 0 (obs.take m) < ceilDiv T I) := by
  have h := monitor_fire_aux I T hI obs 0 n (ceilDiv_pos T I hI hT)
  simpa using h

/-- Witness for C5, spec §8 example 6: interval 30 s, threshold 900 s
(⌈900/30⌉ = 30 polls); 29 idle polls, one non-idle poll, 30 idle polls —
teardown fires on poll 60 (the 30th idle poll after the reset), not on
poll 59. -/
theorem monitor_fires_at_threshold_witness :
    inactivity_monitor_run 30 900 0 monitorObs = some 60 :=
  (monitor_fires_at_threshold 30 900 (by decide) (by decide) monitorObs 60).mpr
    (by decide)

/-- C6: each poll of the inactivity monitor is classified idle exactly
when the playback pipeline has nothing queued (no reachable handler, or
an empty handler queue) OR no participant other than the bot is present
(guild cached with at most one voice state in the channel) — the
logical OR of the two spec atoms. -/
theorem is_idle_iff_or (h q g : Bool) (m : Nat) :
    is_idle h q g m = (pipelineEmpty h q || botAlone g m) := by
  cases h <;> cases q <;> cases g <;> by_cases hm : m ≤ 1 <;>
    simp [is_idle, pipelineEmpty, botAlone, hm]
